import Mathlib

/-!
A shallow embedding of the visible core of the tantivy repository fragment:

* `src/src/indexer/segment_writer.rs` — the per-segment writer (`initial_table_size`,
  `SegmentWriter::for_segment`, `SegmentWriter::add_document`, `SegmentWriter::finalize`).
* `src/src/directory/tests.rs` — the directory capability set those tests exercise
  (`open_write`, `delete`, `atomic_write`, `watch`, `acquire_lock`).

Pure functions of the source become Lean functions; the mutable `SegmentWriter`
becomes explicit state passing; fallible calls return `Option`/`Except`; the
`panic!` in the facet branch of `add_document` is a distinguished abort outcome.
Collaborators that live outside the visible sources (the postings hash-table size
estimate, the facet tokenizer, the fast-field / field-norm builders, the directory
implementations) are modelled from the spec and marked as such.
-/

namespace Tantivy

/-- Modelled from the spec: `compute_table_size` (from `crate::postings`) is not part
of the visible sources. Per spec section 4.2 the term hash table stores fixed-size
bucket records, and the size estimate "must be estimated identically across
implementations so that the reference test vectors hold:
budget 100 000 → 11, 1 000 000 → 14, 10 000 000 → 17, 10⁹ → 19".
Those vectors force a bucket record size of 16 bytes:
`compute_table_size b = 2^b * 16`. -/
def compute_table_size (num_bits : Nat) : Nat := 2 ^ num_bits * 16

/-- The iterator chain `(10..).take_while(|num_bits| compute_table_size(*num_bits) <
table_memory_upper_bound).last()` of `initial_table_size`: starting at `k`, scan
upwards while the estimated table size stays below `bound`, and return the last
candidate that passed (or `none` when even the first fails). `fuel` bounds the
scan; the Rust iterator is unbounded but stops at the first failing candidate,
and 64 steps of fuel cover every `usize` budget since
`compute_table_size 73 = 2^77` already exceeds `usize::MAX / 3`. -/
def find_limit (bound : Nat) : Nat → Nat → Option Nat
  | 0, _ => none
  | fuel + 1, k =>
    if compute_table_size k < bound then
      match find_limit bound fuel (k + 1) with
      | some l => some l
      | none => some k
    else none

/-- Rust `initial_table_size` from `segment_writer.rs`: computes the number of bits `b`
such that the recommended initial table size is `2^b`, reserving a third of the
per-thread memory budget for the table, capping the result at 19, and failing
with `InvalidArgument` when no candidate of at least 10 bits fits. -/
def initial_table_size (per_thread_memory_budget : Nat) : Except String Nat :=
  match find_limit (per_thread_memory_budget / 3) 64 10 with
  | some limit => .ok (min limit 19)
  | none =>
    .error ("per thread memory budget (=" ++ toString per_thread_memory_budget ++
      ") is too small. Raise the memory budget or lower the number of threads.")

/-- The payload of a `Term` beyond its field id. Facet terms carry the encoded
facet path (a list of path steps); numeric terms carry the value they encode
(`Term::from_field_u64` / `from_field_i64` / `from_field_f64`); text terms carry
the token text. -/
inductive TermData where
  | text (s : String)
  | facetPath (steps : List String)
  | uval (v : Nat)
  | ival (v : Int)
  | fval (bits : Nat)
  deriving DecidableEq, Repr

/-- A term: a field id plus the term payload (`Term::for_field` + `set_text`,
`Term::from_field_u64`, ...). -/
structure Term where
  field : Nat
  data : TermData
  deriving DecidableEq, Repr

/-- Rust `schema::Value`: a tagged field value. `f64` values are represented by their
bit pattern; `date` values by their second-precision timestamp; facet values by
their encoded path steps. -/
inductive Value where
  | str (s : String)
  | u64 (v : Nat)
  | i64 (v : Int)
  | f64 (bits : Nat)
  | date (timestamp : Int)
  | facet (steps : List String)
  | bytes (b : List Nat)
  deriving DecidableEq, Repr

/-- Rust `Value::u64_value`, which panics on any other variant (`none` models the panic). -/
def Value.u64_value : Value → Option Nat
  | .u64 v => some v
  | _ => none

/-- Rust `Value::i64_value`, which panics on any other variant. -/
def Value.i64_value : Value → Option Int
  | .i64 v => some v
  | _ => none

/-- Rust `Value::f64_value`, which panics on any other variant. -/
def Value.f64_value : Value → Option Nat
  | .f64 bits => some bits
  | _ => none

/-- Rust `Value::date_value().timestamp()`, which panics on any other variant. -/
def Value.date_timestamp : Value → Option Int
  | .date ts => some ts
  | _ => none

def Value.isFacet : Value → Bool
  | .facet _ => true
  | _ => false

def Value.isStr : Value → Bool
  | .str _ => true
  | _ => false

/-- Rust `schema::FieldType`. For `Str` the flag records whether indexing options are
present and the string names the tokenizer they designate; for the numeric types
the flag is `int_options.is_indexed()`. -/
inductive FieldType where
  | str (indexed : Bool) (tokenizerName : String)
  | u64 (indexed : Bool)
  | i64 (indexed : Bool)
  | f64 (indexed : Bool)
  | date (indexed : Bool)
  | hierarchicalFacet
  | bytes
  deriving DecidableEq, Repr

/-- A schema field entry: its type and whether its values are stored. -/
structure FieldEntry where
  fieldType : FieldType
  stored : Bool
  deriving DecidableEq, Repr

/-- Rust `FieldType::is_indexed`. -/
def FieldType.is_indexed : FieldType → Bool
  | .str indexed _ => indexed
  | .u64 indexed => indexed
  | .i64 indexed => indexed
  | .f64 indexed => indexed
  | .date indexed => indexed
  | .hierarchicalFacet => true
  | .bytes => false

def FieldEntry.is_indexed (e : FieldEntry) : Bool := e.fieldType.is_indexed

/-- A schema: the ordered list of field entries, a field id being the index. -/
abbrev Schema := List FieldEntry

/-- Rust `schema.get_field_entry(field)`. Documents are assumed consistent with the
schema; an out-of-range field is treated as a never-indexed, never-stored entry. -/
def getFieldEntry (schema : Schema) (f : Nat) : FieldEntry :=
  (schema.get? f).getD ⟨.bytes, false⟩

/-- A document: its field values in insertion order, each tagged with a field id. -/
abbrev Document := List (Nat × Value)

/-- `AddOperation`: a document paired with the opstamp assigned upstream. -/
structure AddOperation where
  opstamp : Nat
  document : Document
  deriving DecidableEq, Repr

/-- Modelled from the spec: tokenizers are out-of-scope external capabilities
("the core consumes a token-stream capability"); a tokenizer maps the slice of
text values of a field to the list of token texts it emits
(`tokenizer.token_stream_texts(&texts)`). -/
def Tokenizer := List String → List String

/-- Index of the first occurrence of a term in the term list (the unordered id
an already-present term resolves to). -/
def termIdx (t : Term) : List Term → Nat
  | [] => 0
  | u :: rest => if u = t then 0 else termIdx t rest + 1

/-- Rust `MultiFieldPostingsWriter`: the term hash table (`terms`, insertion-ordered,
the unordered term id of a term being its index) together with the stream of
subscription events `(doc_id, term)` delivered to the posting recorders. -/
structure MultiFieldPostingsWriter where
  terms : List Term
  subs : List (Nat × Term)
  deriving DecidableEq, Repr

/-- Rust `MultiFieldPostingsWriter::subscribe(doc_id, term)`: inserts or finds the
term, appends the doc to its recorder, and returns the term's unordered id. -/
def subscribe (w : MultiFieldPostingsWriter) (doc_id : Nat) (t : Term) :
    Nat × MultiFieldPostingsWriter :=
  if t ∈ w.terms then
    (termIdx t w.terms, { w with subs := w.subs ++ [(doc_id, t)] })
  else
    (w.terms.length, { terms := w.terms ++ [t], subs := w.subs ++ [(doc_id, t)] })

/-- Rust `MultiFieldPostingsWriter::index_text(doc_id, field, token_stream)`:
subscribes one term per token and returns the number of tokens consumed. -/
def index_text (w : MultiFieldPostingsWriter) (doc_id field : Nat)
    (tokens : List String) : Nat × MultiFieldPostingsWriter :=
  (tokens.length,
   tokens.foldl (fun acc tok => (subscribe acc doc_id ⟨field, .text tok⟩).2) w)

/-- Modelled from the spec (section 4.5): the fast-field writer is not part of the
visible sources. Multi-valued columns advance a per-doc row cursor on every
`add_document` (even when the field is absent) and accumulate unordered term ids
via `add_val`; `rowCount` is the cursor and `facetVals` the `(field, id)` pushes
in order. -/
structure FastFieldsWriter where
  rowCount : Nat
  facetVals : List (Nat × Nat)
  deriving DecidableEq, Repr

/-- Rust `FastFieldsWriter::add_document`: advances every column's row cursor. -/
def FastFieldsWriter.addDocumentRow (ff : FastFieldsWriter) : FastFieldsWriter :=
  { ff with rowCount := ff.rowCount + 1 }

/-- Rust `MultiValueIntFastFieldWriter::add_val` on the facet field's column. -/
def FastFieldsWriter.addVal (ff : FastFieldsWriter) (field id : Nat) :
    FastFieldsWriter :=
  { ff with facetVals := ff.facetVals ++ [(field, id)] }

/-- Modelled from the spec (section 4.6): the field-norm writer is not part of the
visible sources. It records one entry per `(doc, text-field)` carrying the token
count, and on finalize pads each field's stream up to `max_doc`. -/
structure FieldNormsWriter where
  records : List (Nat × Nat × Nat)
  filledTo : Nat
  deriving DecidableEq, Repr

/-- Rust `FieldNormsWriter::record(doc_id, field, num_tokens)`. -/
def FieldNormsWriter.record (fw : FieldNormsWriter) (doc_id field num_tokens : Nat) :
    FieldNormsWriter :=
  { fw with records := fw.records ++ [(doc_id, field, num_tokens)] }

/-- Rust `FieldNormsWriter::fill_up_to_max_doc`. -/
def FieldNormsWriter.fill_up_to_max_doc (fw : FieldNormsWriter) (max_doc : Nat) :
    FieldNormsWriter :=
  { fw with filledTo := max_doc }

/-- The `SegmentWriter` state. The segment serializer's store writer is modelled
by the list of stored documents written so far. -/
structure SegmentWriter where
  max_doc : Nat
  multifield_postings : MultiFieldPostingsWriter
  fast_field_writers : FastFieldsWriter
  fieldnorms_writer : FieldNormsWriter
  doc_opstamps : List Nat
  tokenizers : List (Option Tokenizer)
  store : List Document

/-- Modelled from the spec: the facet tokenizer is not part of the visible
sources; it "emits the facet path and every ancestor" of it, shallowest
ancestor first, the full path being the last (deepest) token. -/
def facetTokens (steps : List String) : List (List String) :=
  (List.range steps.length).map (fun i => steps.take (i + 1))

/-- The facet collection of `add_document`'s `HierarchicalFacet` branch:
`field_values.iter().flat_map(|v| match v { Facet(f) => Some(f.encoded_str()),
_ => panic!("Expected hierarchical facet") }).collect()`. `none` models the
panic raised on the first non-facet value. -/
def collectFacets : List Value → Option (List (List String))
  | [] => some []
  | .facet steps :: rest => (collectFacets rest).map (fun l => steps :: l)
  | _ :: _ => none

/-- The per-facet-value body of the `HierarchicalFacet` branch: run the facet
tokenizer, subscribe every token, remember the unordered id of the last token
processed, and (when at least one token was emitted) push it into the facet
field's multi-value fast-field column. The per-token closure passed to
`FacetTokenizer.token_stream(..).process` is `facetStep`. -/
def facetStep (doc_id field : Nat) (acc : Option Nat × MultiFieldPostingsWriter)
    (anc : List String) : Option Nat × MultiFieldPostingsWriter :=
  let s := subscribe acc.2 doc_id ⟨field, .facetPath anc⟩
  (some s.1, s.2)

def subscribeFacetVal (mp : MultiFieldPostingsWriter) (ff : FastFieldsWriter)
    (doc_id field : Nat) (steps : List String) :
    MultiFieldPostingsWriter × FastFieldsWriter :=
  match (facetTokens steps).foldl (facetStep doc_id field) (none, mp) with
  | (some id, mp2) => (mp2, ff.addVal field id)
  | (none, mp2) => (mp2, ff)

/-- One iteration of the facet branch's per-value loop. -/
def facetValStep (doc_id field : Nat)
    (p : MultiFieldPostingsWriter × FastFieldsWriter) (steps : List String) :
    MultiFieldPostingsWriter × FastFieldsWriter :=
  subscribeFacetVal p.1 p.2 doc_id field steps

/-- The `FieldType::HierarchicalFacet` branch of `add_document`. -/
def processFacetField (sw : SegmentWriter) (doc_id field : Nat)
    (values : List Value) : Option SegmentWriter :=
  (collectFacets values).map (fun facets =>
    let r := facets.foldl (facetValStep doc_id field)
      (sw.multifield_postings, sw.fast_field_writers)
    { sw with multifield_postings := r.1, fast_field_writers := r.2 })

/-- The `Str` texts collected by the `FieldType::Str` branch: non-`Str` values
are silently dropped by the `flat_map`. -/
def strTexts (values : List Value) : List String :=
  values.filterMap (fun v => match v with | .str s => some s | _ => none)

/-- The `FieldType::Str` branch of `add_document`: when a tokenizer was resolved
at construction, tokenize the `Str` values jointly and subscribe each token,
otherwise index zero tokens; in both cases record the token count in the
field-norm writer. -/
def processTextField (sw : SegmentWriter) (doc_id field : Nat)
    (values : List Value) : SegmentWriter :=
  let r : Nat × MultiFieldPostingsWriter :=
    match sw.tokenizers.getD field none with
    | some tok =>
      let texts := strTexts values
      if texts.isEmpty then (0, sw.multifield_postings)
      else index_text sw.multifield_postings doc_id field (tok texts)
    | none => (0, sw.multifield_postings)
  { sw with
    multifield_postings := r.2,
    fieldnorms_writer := sw.fieldnorms_writer.record doc_id field r.1 }

/-- The numeric branches of `add_document`: subscribe one term per value, the
term built by the given encoder (`none` models the panic of the `Value`
accessor on a type-mismatched value). -/
def subscribeNumericVals (doc_id : Nat) (mkTerm : Value → Option Term) :
    MultiFieldPostingsWriter → List Value → Option MultiFieldPostingsWriter
  | mp, [] => some mp
  | mp, v :: rest =>
    match mkTerm v with
    | some t => subscribeNumericVals doc_id mkTerm (subscribe mp doc_id t).2 rest
    | none => none

/-- One iteration of `add_document`'s field loop: skip non-indexed fields and
dispatch on the field type. `none` models a panic. -/
def processField (schema : Schema) (doc_id : Nat) (sw : SegmentWriter)
    (field : Nat) (values : List Value) : Option SegmentWriter :=
  if !(getFieldEntry schema field).is_indexed then some sw
  else
    match (getFieldEntry schema field).fieldType with
    | .hierarchicalFacet => processFacetField sw doc_id field values
    | .str _ _ => some (processTextField sw doc_id field values)
    | .u64 idx =>
      if idx then
        (subscribeNumericVals doc_id
          (fun v => v.u64_value.map (fun n => ⟨field, .uval n⟩))
          sw.multifield_postings values).map
          (fun mp => { sw with multifield_postings := mp })
      else some sw
    | .date idx =>
      if idx then
        (subscribeNumericVals doc_id
          (fun v => v.date_timestamp.map (fun n => ⟨field, .ival n⟩))
          sw.multifield_postings values).map
          (fun mp => { sw with multifield_postings := mp })
      else some sw
    | .i64 idx =>
      if idx then
        (subscribeNumericVals doc_id
          (fun v => v.i64_value.map (fun n => ⟨field, .ival n⟩))
          sw.multifield_postings values).map
          (fun mp => { sw with multifield_postings := mp })
      else some sw
    | .f64 idx =>
      if idx then
        (subscribeNumericVals doc_id
          (fun v => v.f64_value.map (fun n => ⟨field, .fval n⟩))
          sw.multifield_postings values).map
          (fun mp => { sw with multifield_postings := mp })
      else some sw
    | .bytes => some sw

/-- The field loop of `add_document` over `doc.get_sorted_field_values()`. -/
def processFields (schema : Schema) (doc_id : Nat) :
    SegmentWriter → List (Nat × List Value) → Option SegmentWriter
  | sw, [] => some sw
  | sw, (field, values) :: rest =>
    match processField schema doc_id sw field values with
    | some sw' => processFields schema doc_id sw' rest
    | none => none

/-- An upper bound on the field ids occurring in a document. -/
def docFieldsUpper (doc : Document) : Nat :=
  doc.foldr (fun p m => max (p.1 + 1) m) 0

/-- Rust `Document::get_sorted_field_values()`: the document's values grouped by
field, groups in increasing field order, values within a group in insertion
order. -/
def getSortedFieldValues (doc : Document) : List (Nat × List Value) :=
  ((List.range (docFieldsUpper doc)).filter
      (fun f => doc.any (fun p => p.1 == f))).map
    (fun f => (f, doc.filterMap (fun p => if p.1 = f then some p.2 else none)))

/-- The result of one `add_document` call: success, an I/O error from the
document-store write (the only fallible call), or a process abort from the
`panic!` in the facet branch (or a `Value` accessor). -/
inductive AddOutcome where
  | ok
  | ioError
  | panicked
  deriving DecidableEq, Repr

/-- Rust `SegmentWriter::add_document`. `store_ok` is the environment's verdict on
the document-store write `doc_writer.store(&doc)?`. The opstamp is pushed and
the fast-field row cursors advance before any fallible step, and `max_doc` is
incremented only after the store write succeeds. -/
def add_document (sw : SegmentWriter) (add_operation : AddOperation)
    (schema : Schema) (store_ok : Bool) : AddOutcome × SegmentWriter :=
  let doc_id := sw.max_doc
  let doc := add_operation.document
  let sw1 := { sw with doc_opstamps := sw.doc_opstamps ++ [add_operation.opstamp] }
  let sw2 := { sw1 with fast_field_writers := sw1.fast_field_writers.addDocumentRow }
  match processFields schema doc_id sw2 (getSortedFieldValues doc) with
  | none => (.panicked, sw2)
  | some sw3 =>
    let stored_doc := doc.filter (fun p => (getFieldEntry schema p.1).stored)
    if store_ok then
      (.ok, { sw3 with store := sw3.store ++ [stored_doc], max_doc := sw3.max_doc + 1 })
    else
      (.ioError, sw3)

/-- The tokenizer resolution of `SegmentWriter::for_segment`: one slot per
schema field, populated only for `Str` fields whose indexing options name a
tokenizer known to the registry. -/
def buildTokenizers (schema : Schema) (registry : String → Option Tokenizer) :
    List (Option Tokenizer) :=
  schema.map (fun entry =>
    match entry.fieldType with
    | .str indexed tokName => if indexed then registry tokName else none
    | _ => none)

/-- Rust `SegmentWriter::for_segment(memory_budget, segment, schema)`: fails when the
memory budget is too small for the term hash table, otherwise starts an empty
writer with the resolved tokenizers. The table bit count only sizes the hash
table and is not otherwise observable in this model. -/
def for_segment (memory_budget : Nat) (registry : String → Option Tokenizer)
    (schema : Schema) : Except String SegmentWriter :=
  match initial_table_size memory_budget with
  | .error e => .error e
  | .ok _table_num_bits =>
    .ok
      { max_doc := 0
        multifield_postings := { terms := [], subs := [] }
        fast_field_writers := { rowCount := 0, facetVals := [] }
        fieldnorms_writer := { records := [], filledTo := 0 }
        doc_opstamps := []
        tokenizers := buildTokenizers schema registry
        store := [] }

/-- Rust `SegmentWriter::finalize`: pads the field-norm writer to `max_doc`, runs the
serializer fan-out (whose success is the environment's verdict `write_ok`), and
returns the per-doc opstamp vector. -/
def finalize (write_ok : Bool) (sw : SegmentWriter) : Option (List Nat) :=
  let sw' :=
    { sw with fieldnorms_writer := sw.fieldnorms_writer.fill_up_to_max_doc sw.max_doc }
  if write_ok then some sw'.doc_opstamps else none

/-- A run of `add_document` calls in which every call must succeed (the store
write succeeding each time); `none` when any call fails or aborts. -/
def runAdds (schema : Schema) :
    SegmentWriter → List AddOperation → Option SegmentWriter
  | sw, [] => some sw
  | sw, op :: rest =>
    match add_document sw op schema true with
    | (.ok, sw') => runAdds schema sw' rest
    | (_, _) => none

/-- A whole segment build: construct the writer from the budget and schema, then
feed it the operations, requiring every `add_document` call to succeed. -/
def buildSegment (memory_budget : Nat) (registry : String → Option Tokenizer)
    (schema : Schema) (ops : List AddOperation) : Option SegmentWriter :=
  match for_segment memory_budget registry schema with
  | .ok sw => runAdds schema sw ops
  | .error _ => none

/-! Helper lemmas. -/

theorem compute_table_size_mono {j k : Nat} (h : j ≤ k) :
    compute_table_size j ≤ compute_table_size k :=
  Nat.mul_le_mul_right 16 (Nat.pow_le_pow_right (by norm_num) h)

theorem find_limit_succ (bound fuel k : Nat) :
    find_limit bound (fuel + 1) k =
      if compute_table_size k < bound then
        match find_limit bound fuel (k + 1) with
        | some l => some l
        | none => some k
      else none := rfl

theorem find_limit_spec (bound : Nat) :
    ∀ fuel k, ¬ compute_table_size (k + fuel) < bound →
      (compute_table_size k < bound →
        ∃ K, find_limit bound (fuel + 1) k = some K ∧ k ≤ K ∧
          compute_table_size K < bound ∧ ¬ compute_table_size (K + 1) < bound) ∧
      (¬ compute_table_size k < bound → find_limit bound (fuel + 1) k = none) := by
  intro fuel
  induction fuel with
  | zero =>
    intro k hk
    refine ⟨fun hpk => absurd hpk (by simpa using hk), fun hnk => ?_⟩
    simp [find_limit, hnk]
  | succ f ih =>
    intro k hk
    have hk' : ¬ compute_table_size ((k + 1) + f) < bound := by
      have : (k + 1) + f = k + (f + 1) := by omega
      rwa [this]
    constructor
    · intro hpk
      rcases Classical.em (compute_table_size (k + 1) < bound) with hp1 | hp1
      · obtain ⟨K, hfl, hle, hK, hK1⟩ := (ih (k + 1) hk').1 hp1
        refine ⟨K, ?_, by omega, hK, hK1⟩
        rw [find_limit_succ, if_pos hpk, hfl]
      · have hnone := (ih (k + 1) hk').2 hp1
        refine ⟨k, ?_, le_refl k, hpk, hp1⟩
        rw [find_limit_succ, if_pos hpk, hnone]
    · intro hnk
      simp [find_limit, hnk]

theorem termIdx_append_of_mem {t : Term} {l : List Term} (h : t ∈ l) (e : List Term) :
    termIdx t (l ++ e) = termIdx t l := by
  induction l with
  | nil => cases h
  | cons u rest ih =>
    rcases Classical.em (u = t) with hu | hu
    · simp [termIdx, hu]
    · have hr : t ∈ rest := by
        cases h with
        | head => exact absurd rfl hu
        | tail _ h => exact h
      simp [termIdx, hu, ih hr]

theorem termIdx_append_not_mem {t : Term} {l : List Term} (h : t ∉ l) (e : List Term) :
    termIdx t (l ++ t :: e) = l.length := by
  induction l with
  | nil => simp [termIdx]
  | cons u rest ih =>
    have hu : ¬ u = t := fun heq => h (heq ▸ List.mem_cons_self u rest)
    have hr : t ∉ rest := fun hm => h (List.mem_cons_of_mem u hm)
    simp [termIdx, hu, ih hr]

theorem subscribe_subs (w : MultiFieldPostingsWriter) (d : Nat) (t : Term) :
    (subscribe w d t).2.subs = w.subs ++ [(d, t)] := by
  unfold subscribe
  split <;> rfl

theorem subscribe_terms (w : MultiFieldPostingsWriter) (d : Nat) (t : Term) :
    ∃ e, (subscribe w d t).2.terms = w.terms ++ e := by
  unfold subscribe
  split
  · exact ⟨[], by simp⟩
  · exact ⟨[t], rfl⟩

theorem subscribe_mem (w : MultiFieldPostingsWriter) (d : Nat) (t : Term) :
    t ∈ (subscribe w d t).2.terms := by
  unfold subscribe
  split
  · assumption
  · simp

theorem subscribe_id (w : MultiFieldPostingsWriter) (d : Nat) (t : Term) :
    (subscribe w d t).1 = termIdx t (subscribe w d t).2.terms := by
  unfold subscribe
  split
  · simp
  · rename_i hmem
    simpa using (termIdx_append_not_mem hmem []).symm

theorem facetTokens_getLast {s : List String} (h : s ≠ []) :
    (facetTokens s).getLast? = some s := by
  obtain ⟨m, hm⟩ : ∃ m, s.length = m + 1 := by
    cases hs : s with
    | nil => exact absurd hs h
    | cons a l => exact ⟨l.length, by simp⟩
  unfold facetTokens
  rw [hm, List.range_succ, List.map_append]
  simp only [List.map_cons, List.map_nil, List.getLast?_concat]
  rw [← hm, List.take_length]

theorem facetTokens_ne_nil {s : List String} (h : s ≠ []) : facetTokens s ≠ [] := by
  unfold facetTokens
  intro hcon
  have : s.length = 0 := by simpa using congrArg List.length hcon
  exact h (List.eq_nil_of_length_eq_zero this)


theorem facetFold_spec (d f : Nat) :
    ∀ (toks : List (List String)), toks ≠ [] →
    ∀ (a0 : Option Nat) (mp : MultiFieldPostingsWriter),
      (toks.foldl (facetStep d f) (a0, mp)).2.subs =
          mp.subs ++ toks.map (fun anc => (d, Term.mk f (.facetPath anc))) ∧
      (∃ e, (toks.foldl (facetStep d f) (a0, mp)).2.terms = mp.terms ++ e) ∧
      ∃ last, toks.getLast? = some last ∧
        Term.mk f (.facetPath last) ∈ (toks.foldl (facetStep d f) (a0, mp)).2.terms ∧
        (toks.foldl (facetStep d f) (a0, mp)).1 =
          some (termIdx (Term.mk f (.facetPath last))
            (toks.foldl (facetStep d f) (a0, mp)).2.terms) := by
  intro toks
  induction toks with
  | nil => intro h; exact absurd rfl h
  | cons t rest ih =>
    intro _ a0 mp
    cases rest with
    | nil =>
      simp only [List.foldl_cons, List.foldl_nil, facetStep]
      refine ⟨by simpa using subscribe_subs mp d ⟨f, .facetPath t⟩, ?_, t, rfl, ?_, ?_⟩
      · simpa using subscribe_terms mp d ⟨f, .facetPath t⟩
      · exact subscribe_mem mp d ⟨f, .facetPath t⟩
      · simpa using congrArg some (subscribe_id mp d ⟨f, .facetPath t⟩)
    | cons t2 rest2 =>
      have hne2 : t2 :: rest2 ≠ [] := by simp
      obtain ⟨e1, he1⟩ := subscribe_terms mp d ⟨f, .facetPath t⟩
      have hstep : List.foldl (facetStep d f) (a0, mp) (t :: t2 :: rest2) =
          List.foldl (facetStep d f)
            (some (subscribe mp d ⟨f, .facetPath t⟩).1,
             (subscribe mp d ⟨f, .facetPath t⟩).2) (t2 :: rest2) := rfl
      obtain ⟨hsubs, ⟨e, hterms⟩, last, hlast, hmem, hid⟩ :=
        ih hne2 (some (subscribe mp d ⟨f, .facetPath t⟩).1)
          (subscribe mp d ⟨f, .facetPath t⟩).2
      rw [hstep]
      refine ⟨?_, ⟨e1 ++ e, ?_⟩, last, ?_, hmem, hid⟩
      · rw [hsubs, subscribe_subs]
        simp
      · rw [hterms, he1, List.append_assoc]
      · rw [List.getLast?_cons_cons]
        exact hlast

theorem subscribeFacetVal_eta (mp : MultiFieldPostingsWriter) (ff : FastFieldsWriter)
    (d f : Nat) (s : List String) :
    subscribeFacetVal mp ff d f s =
      match ((facetTokens s).foldl (facetStep d f) (none, mp)).1 with
      | some id => (((facetTokens s).foldl (facetStep d f) (none, mp)).2, ff.addVal f id)
      | none => (((facetTokens s).foldl (facetStep d f) (none, mp)).2, ff) := by
  unfold subscribeFacetVal
  rcases (facetTokens s).foldl (facetStep d f) (none, mp) with ⟨a, mp2⟩
  cases a <;> rfl

theorem subscribeFacetVal_spec (mp : MultiFieldPostingsWriter) (ff : FastFieldsWriter)
    (d f : Nat) (s : List String) (h : s ≠ []) :
    (subscribeFacetVal mp ff d f s).1.subs =
        mp.subs ++ (facetTokens s).map (fun anc => (d, Term.mk f (.facetPath anc))) ∧
    (∃ e, (subscribeFacetVal mp ff d f s).1.terms = mp.terms ++ e) ∧
    Term.mk f (.facetPath s) ∈ (subscribeFacetVal mp ff d f s).1.terms ∧
    (subscribeFacetVal mp ff d f s).2 =
      ff.addVal f (termIdx (Term.mk f (.facetPath s)) (subscribeFacetVal mp ff d f s).1.terms) := by
  obtain ⟨hsubs, hterms, last, hlast, hmem, hid⟩ :=
    facetFold_spec d f (facetTokens s) (facetTokens_ne_nil h) none mp
  have hlast_s : last = s := by
    have hgl := facetTokens_getLast h
    rw [hlast] at hgl
    exact Option.some_injective _ hgl
  subst hlast_s
  rw [subscribeFacetVal_eta, hid]
  exact ⟨hsubs, hterms, hmem, rfl⟩

theorem subscribeFacetVal_rowCount (mp : MultiFieldPostingsWriter)
    (ff : FastFieldsWriter) (d f : Nat) (s : List String) :
    (subscribeFacetVal mp ff d f s).2.rowCount = ff.rowCount := by
  rw [subscribeFacetVal_eta]
  split <;> rfl

theorem facetValStep_unfold (d f : Nat) (mp : MultiFieldPostingsWriter)
    (ff : FastFieldsWriter) (s : List String) :
    facetValStep d f (mp, ff) s = subscribeFacetVal mp ff d f s := rfl

theorem facetValsFold_rowCount (d f : Nat) (facets : List (List String)) :
    ∀ (mp : MultiFieldPostingsWriter) (ff : FastFieldsWriter),
      (facets.foldl (facetValStep d f) (mp, ff)).2.rowCount = ff.rowCount := by
  induction facets with
  | nil => intro mp ff; rfl
  | cons s rest ih =>
    intro mp ff
    have hstep : List.foldl (facetValStep d f) (mp, ff) (s :: rest) =
        List.foldl (facetValStep d f)
          ((subscribeFacetVal mp ff d f s).1, (subscribeFacetVal mp ff d f s).2) rest := by
      rw [List.foldl_cons, facetValStep_unfold]
    rw [hstep, ih]
    exact subscribeFacetVal_rowCount mp ff d f s

theorem facetValsFold_spec (d f : Nat) (facets : List (List String))
    (hne : ∀ s ∈ facets, s ≠ []) :
    ∀ (mp : MultiFieldPostingsWriter) (ff : FastFieldsWriter),
      (facets.foldl (facetValStep d f) (mp, ff)).1.subs =
          mp.subs ++ facets.flatMap
            (fun s => (facetTokens s).map (fun anc => (d, Term.mk f (.facetPath anc)))) ∧
      (∃ e, (facets.foldl (facetValStep d f) (mp, ff)).1.terms = mp.terms ++ e) ∧
      (facets.foldl (facetValStep d f) (mp, ff)).2.facetVals =
          ff.facetVals ++ facets.map (fun s =>
            (f, termIdx (Term.mk f (.facetPath s))
              (facets.foldl (facetValStep d f) (mp, ff)).1.terms)) := by
  induction facets with
  | nil => intro mp ff; exact ⟨by simp, ⟨[], by simp⟩, by simp⟩
  | cons s rest ih =>
    intro mp ff
    have hs : s ≠ [] := hne s (List.mem_cons_self s rest)
    have hrest : ∀ u ∈ rest, u ≠ [] := fun u hu => hne u (List.mem_cons_of_mem s hu)
    obtain ⟨hsubs1, ⟨e1, hterms1⟩, hmem1, hff1⟩ := subscribeFacetVal_spec mp ff d f s hs
    have hstep : List.foldl (facetValStep d f) (mp, ff) (s :: rest) =
        List.foldl (facetValStep d f)
          ((subscribeFacetVal mp ff d f s).1, (subscribeFacetVal mp ff d f s).2) rest := by
      rw [List.foldl_cons, facetValStep_unfold]
    obtain ⟨hsubs2, ⟨e2, hterms2⟩, hvals2⟩ :=
      ih hrest (subscribeFacetVal mp ff d f s).1 (subscribeFacetVal mp ff d f s).2
    rw [hstep]
    have hidx : termIdx (Term.mk f (.facetPath s)) (subscribeFacetVal mp ff d f s).1.terms =
        termIdx (Term.mk f (.facetPath s))
          (List.foldl (facetValStep d f)
            ((subscribeFacetVal mp ff d f s).1, (subscribeFacetVal mp ff d f s).2) rest).1.terms := by
      rw [hterms2, termIdx_append_of_mem hmem1]
    refine ⟨?_, ⟨e1 ++ e2, ?_⟩, ?_⟩
    · rw [hsubs2, hsubs1, List.flatMap_cons, List.append_assoc]
    · rw [hterms2, hterms1, List.append_assoc]
    · rw [hvals2]
      have hx2 : (subscribeFacetVal mp ff d f s).2.facetVals =
          ff.facetVals ++
            [(f, termIdx (Term.mk f (.facetPath s)) (subscribeFacetVal mp ff d f s).1.terms)] := by
        rw [hff1]
        rfl
      rw [hx2, hidx]
      simp

/-! Preservation lemmas for the add-document loop. -/

theorem processTextField_preserves (sw : SegmentWriter) (doc_id field : Nat)
    (values : List Value) :
    (processTextField sw doc_id field values).max_doc = sw.max_doc ∧
    (processTextField sw doc_id field values).doc_opstamps = sw.doc_opstamps ∧
    (processTextField sw doc_id field values).fast_field_writers = sw.fast_field_writers ∧
    (processTextField sw doc_id field values).tokenizers = sw.tokenizers ∧
    (processTextField sw doc_id field values).store = sw.store := by
  unfold processTextField
  exact ⟨rfl, rfl, rfl, rfl, rfl⟩

theorem processFacetField_preserves {sw sw' : SegmentWriter} {doc_id field : Nat}
    {values : List Value}
    (h : processFacetField sw doc_id field values = some sw') :
    sw'.max_doc = sw.max_doc ∧ sw'.doc_opstamps = sw.doc_opstamps ∧
    sw'.fast_field_writers.rowCount = sw.fast_field_writers.rowCount ∧
    sw'.tokenizers = sw.tokenizers ∧ sw'.store = sw.store := by
  unfold processFacetField at h
  rw [Option.map_eq_some'] at h
  obtain ⟨facets, _, hsw⟩ := h
  subst hsw
  refine ⟨rfl, rfl, ?_, rfl, rfl⟩
  exact facetValsFold_rowCount doc_id field facets sw.multifield_postings
    sw.fast_field_writers

theorem processField_preserves {schema : Schema} {doc_id : Nat} {sw sw' : SegmentWriter}
    {field : Nat} {values : List Value}
    (h : processField schema doc_id sw field values = some sw') :
    sw'.max_doc = sw.max_doc ∧ sw'.doc_opstamps = sw.doc_opstamps ∧
    sw'.fast_field_writers.rowCount = sw.fast_field_writers.rowCount ∧
    sw'.tokenizers = sw.tokenizers ∧ sw'.store = sw.store := by
  unfold processField at h
  split at h
  · obtain rfl := Option.some_injective _ h
    exact ⟨rfl, rfl, rfl, rfl, rfl⟩
  · split at h
    · exact processFacetField_preserves h
    · obtain rfl := Option.some_injective _ h
      obtain ⟨h1, h2, h3, h4, h5⟩ := processTextField_preserves sw doc_id field values
      exact ⟨h1, h2, by rw [h3], h4, h5⟩
    · split at h
      · rw [Option.map_eq_some'] at h
        obtain ⟨mp, _, hsw⟩ := h
        subst hsw
        exact ⟨rfl, rfl, rfl, rfl, rfl⟩
      · obtain rfl := Option.some_injective _ h
        exact ⟨rfl, rfl, rfl, rfl, rfl⟩
    · split at h
      · rw [Option.map_eq_some'] at h
        obtain ⟨mp, _, hsw⟩ := h
        subst hsw
        exact ⟨rfl, rfl, rfl, rfl, rfl⟩
      · obtain rfl := Option.some_injective _ h
        exact ⟨rfl, rfl, rfl, rfl, rfl⟩
    · split at h
      · rw [Option.map_eq_some'] at h
        obtain ⟨mp, _, hsw⟩ := h
        subst hsw
        exact ⟨rfl, rfl, rfl, rfl, rfl⟩
      · obtain rfl := Option.some_injective _ h
        exact ⟨rfl, rfl, rfl, rfl, rfl⟩
    · split at h
      · rw [Option.map_eq_some'] at h
        obtain ⟨mp, _, hsw⟩ := h
        subst hsw
        exact ⟨rfl, rfl, rfl, rfl, rfl⟩
      · obtain rfl := Option.some_injective _ h
        exact ⟨rfl, rfl, rfl, rfl, rfl⟩
    · obtain rfl := Option.some_injective _ h
      exact ⟨rfl, rfl, rfl, rfl, rfl⟩

theorem processFields_preserves {schema : Schema} {doc_id : Nat} :
    ∀ {l : List (Nat × List Value)} {sw sw' : SegmentWriter},
      processFields schema doc_id sw l = some sw' →
      sw'.max_doc = sw.max_doc ∧ sw'.doc_opstamps = sw.doc_opstamps ∧
      sw'.fast_field_writers.rowCount = sw.fast_field_writers.rowCount ∧
      sw'.tokenizers = sw.tokenizers ∧ sw'.store = sw.store
  | [], sw, sw', h => by
    obtain rfl := Option.some_injective _ h
    exact ⟨rfl, rfl, rfl, rfl, rfl⟩
  | (field, values) :: rest, sw, sw', h => by
    unfold processFields at h
    split at h
    · rename_i sw1 hfield
      obtain ⟨h1, h2, h3, h4, h5⟩ := processField_preserves hfield
      obtain ⟨g1, g2, g3, g4, g5⟩ := processFields_preserves h
      exact ⟨g1.trans h1, g2.trans h2, g3.trans h3, g4.trans h4, g5.trans h5⟩
    · exact absurd h (by simp)

theorem add_document_eta (sw : SegmentWriter) (op : AddOperation) (schema : Schema)
    (store_ok : Bool) :
    add_document sw op schema store_ok =
      match processFields schema sw.max_doc
        { sw with
          doc_opstamps := sw.doc_opstamps ++ [op.opstamp],
          fast_field_writers := sw.fast_field_writers.addDocumentRow }
        (getSortedFieldValues op.document) with
      | none =>
        (.panicked,
          { sw with
            doc_opstamps := sw.doc_opstamps ++ [op.opstamp],
            fast_field_writers := sw.fast_field_writers.addDocumentRow })
      | some sw3 =>
        if store_ok then
          (.ok,
            { sw3 with
              store := sw3.store ++
                [op.document.filter (fun p => (getFieldEntry schema p.1).stored)],
              max_doc := sw3.max_doc + 1 })
        else (.ioError, sw3) := rfl

theorem add_document_ok {sw sw' : SegmentWriter} {op : AddOperation} {schema : Schema}
    (h : add_document sw op schema true = (.ok, sw')) :
    sw'.max_doc = sw.max_doc + 1 ∧
    sw'.doc_opstamps = sw.doc_opstamps ++ [op.opstamp] ∧
    sw'.fast_field_writers.rowCount = sw.fast_field_writers.rowCount + 1 ∧
    sw'.tokenizers = sw.tokenizers := by
  rw [add_document_eta] at h
  split at h
  · exact absurd (congrArg Prod.fst h) (by simp)
  · rename_i sw3 hpf
    rw [if_pos rfl] at h
    obtain ⟨h1, h2, h3, h4, h5⟩ := processFields_preserves hpf
    have hsw' : sw' = { sw3 with
        store := sw3.store ++
          [op.document.filter (fun p => (getFieldEntry schema p.1).stored)],
        max_doc := sw3.max_doc + 1 } := (congrArg Prod.snd h).symm
    subst hsw'
    refine ⟨?_, ?_, ?_, ?_⟩ <;> simp [h1, h2, h3, h4, FastFieldsWriter.addDocumentRow]

theorem runAdds_spec {schema : Schema} :
    ∀ {ops : List AddOperation} {sw sw' : SegmentWriter},
      runAdds schema sw ops = some sw' →
      sw'.max_doc = sw.max_doc + ops.length ∧
      sw'.doc_opstamps = sw.doc_opstamps ++ ops.map (fun op => op.opstamp)
  | [], sw, sw', h => by
    obtain rfl := Option.some_injective _ h
    exact ⟨rfl, by simp⟩
  | op :: rest, sw, sw', h => by
    unfold runAdds at h
    split at h
    · rename_i sw1 heq
      obtain ⟨h1, h2, _, _⟩ := add_document_ok heq
      obtain ⟨g1, g2⟩ := runAdds_spec h
      constructor
      · rw [g1, h1, List.length_cons]
        omega
      · rw [g2, h2]
        simp
    · exact absurd h (by simp)

/-- Claim C1: for every segment build in which every `add_document` call
succeeds, after `n` successful calls since construction `max_doc` is `n`, and
`finalize` (when its serializer fan-out succeeds) returns the per-doc opstamp
vector: it has length `n` and its `i`-th entry is the opstamp of the `i`-th add
operation, insertion order preserved. -/
theorem claim_C1_build_counts_and_opstamps (memory_budget : Nat)
    (registry : String → Option Tokenizer) (schema : Schema)
    (ops : List AddOperation) (sw' : SegmentWriter)
    (h : buildSegment memory_budget registry schema ops = some sw') :
    sw'.max_doc = ops.length ∧
    sw'.doc_opstamps = ops.map (fun op => op.opstamp) ∧
    sw'.doc_opstamps.length = ops.length ∧
    finalize true sw' = some (ops.map (fun op => op.opstamp)) := by
  unfold buildSegment at h
  split at h
  · rename_i sw0 hfs
    unfold for_segment at hfs
    split at hfs
    · exact absurd hfs (by simp)
    · injection hfs with hfs
      subst hfs
      obtain ⟨g1, g2⟩ := runAdds_spec h
      have g2' : sw'.doc_opstamps = ops.map (fun op => op.opstamp) := by simpa using g2
      refine ⟨by simpa using g1, g2', ?_, ?_⟩
      · rw [g2']
        simp
      · simp [finalize, g2']
  · exact absurd h (by simp)

/-- Claim C1 witness: a concrete two-document build with budget 100000. -/
theorem claim_C1_build_counts_and_opstamps_witness :
    (⟨2, ⟨[], []⟩, ⟨2, []⟩, ⟨[], 0⟩, [5, 7], [], [[], []]⟩ : SegmentWriter).max_doc = 2 ∧
    (⟨2, ⟨[], []⟩, ⟨2, []⟩, ⟨[], 0⟩, [5, 7], [], [[], []]⟩ : SegmentWriter).doc_opstamps =
      [5, 7] ∧
    (⟨2, ⟨[], []⟩, ⟨2, []⟩, ⟨[], 0⟩, [5, 7], [], [[], []]⟩ :
      SegmentWriter).doc_opstamps.length = 2 ∧
    finalize true (⟨2, ⟨[], []⟩, ⟨2, []⟩, ⟨[], 0⟩, [5, 7], [], [[], []]⟩ : SegmentWriter) =
      some [5, 7] :=
  claim_C1_build_counts_and_opstamps 100000 (fun _ => none) []
    [⟨5, []⟩, ⟨7, []⟩] ⟨2, ⟨[], []⟩, ⟨2, []⟩, ⟨[], 0⟩, [5, 7], [], [[], []]⟩ rfl

/-- Claim C9: `add_document` is not atomic on failure. The opstamp is pushed and
the fast-field row cursors advance before the document-store write is attempted,
so when the store write returns an I/O error the call returns an error with
`max_doc` unchanged while the failed operation's opstamp has been appended: the
opstamp vector is then longer than `max_doc`. -/
theorem claim_C9_add_document_not_atomic (sw : SegmentWriter) (op : AddOperation)
    (schema : Schema) (sw' : SegmentWriter)
    (h : add_document sw op schema false = (.ioError, sw')) :
    sw'.max_doc = sw.max_doc ∧
    sw'.doc_opstamps = sw.doc_opstamps ++ [op.opstamp] ∧
    sw'.doc_opstamps.length = sw.doc_opstamps.length + 1 ∧
    sw'.fast_field_writers.rowCount = sw.fast_field_writers.rowCount + 1 ∧
    (sw.doc_opstamps.length = sw.max_doc → sw'.max_doc < sw'.doc_opstamps.length) := by
  rw [add_document_eta] at h
  split at h
  · exact absurd (congrArg Prod.fst h) (by simp)
  · rename_i sw3 hpf
    rw [if_neg (by simp)] at h
    have hsw' : sw' = sw3 := (congrArg Prod.snd h).symm
    subst hsw'
    obtain ⟨h1, h2, h3, _, _⟩ := processFields_preserves hpf
    simp only [FastFieldsWriter.addDocumentRow] at h1 h2 h3
    refine ⟨by simpa using h1, by simpa using h2, ?_, by simpa using h3, ?_⟩
    · rw [h2]
      simp
    · intro hlen
      rw [h2, h1]
      simp [hlen]

/-- Claim C9 witness: a failing store write on an empty document. -/
theorem claim_C9_add_document_not_atomic_witness :
    (⟨0, ⟨[], []⟩, ⟨1, []⟩, ⟨[], 0⟩, [9], [], []⟩ : SegmentWriter).max_doc = 0 ∧
    (⟨0, ⟨[], []⟩, ⟨1, []⟩, ⟨[], 0⟩, [9], [], []⟩ : SegmentWriter).doc_opstamps =
      [] ++ [9] ∧
    (⟨0, ⟨[], []⟩, ⟨1, []⟩, ⟨[], 0⟩, [9], [], []⟩ :
      SegmentWriter).doc_opstamps.length = 0 + 1 ∧
    (⟨0, ⟨[], []⟩, ⟨1, []⟩, ⟨[], 0⟩, [9], [], []⟩ :
      SegmentWriter).fast_field_writers.rowCount = 0 + 1 ∧
    ((0 : Nat) = 0 →
      (⟨0, ⟨[], []⟩, ⟨1, []⟩, ⟨[], 0⟩, [9], [], []⟩ : SegmentWriter).max_doc <
        (⟨0, ⟨[], []⟩, ⟨1, []⟩, ⟨[], 0⟩, [9], [], []⟩ :
          SegmentWriter).doc_opstamps.length) :=
  claim_C9_add_document_not_atomic ⟨0, ⟨[], []⟩, ⟨0, []⟩, ⟨[], 0⟩, [], [], []⟩
    ⟨9, []⟩ [] ⟨0, ⟨[], []⟩, ⟨1, []⟩, ⟨[], 0⟩, [9], [], []⟩ rfl

/-- Claim C3: for every hierarchical-facet field value list (each value a facet
with a non-empty path), the facet branch subscribes one term per token emitted
by the facet tokenizer (the facet path and every ancestor), and pushes into the
field's multi-value fast-field column exactly one unordered term id per input
facet value, namely the id of its last (deepest) token, without advancing the
row cursor. -/
theorem claim_C3_facet_branch (sw : SegmentWriter) (doc_id field : Nat)
    (values : List Value) (facets : List (List String))
    (hc : collectFacets values = some facets)
    (hne : ∀ s ∈ facets, s ≠ []) :
    processFacetField sw doc_id field values = some
      { sw with
        multifield_postings := (facets.foldl (facetValStep doc_id field)
          (sw.multifield_postings, sw.fast_field_writers)).1,
        fast_field_writers := (facets.foldl (facetValStep doc_id field)
          (sw.multifield_postings, sw.fast_field_writers)).2 } ∧
    (facets.foldl (facetValStep doc_id field)
        (sw.multifield_postings, sw.fast_field_writers)).1.subs =
      sw.multifield_postings.subs ++ facets.flatMap (fun s => (facetTokens s).map
        (fun anc => (doc_id, Term.mk field (.facetPath anc)))) ∧
    (facets.foldl (facetValStep doc_id field)
        (sw.multifield_postings, sw.fast_field_writers)).2.facetVals =
      sw.fast_field_writers.facetVals ++ facets.map (fun s =>
        (field, termIdx (Term.mk field (.facetPath s))
          (facets.foldl (facetValStep doc_id field)
            (sw.multifield_postings, sw.fast_field_writers)).1.terms)) ∧
    (facets.foldl (facetValStep doc_id field)
        (sw.multifield_postings, sw.fast_field_writers)).2.rowCount =
      sw.fast_field_writers.rowCount := by
  obtain ⟨hsubs, _, hvals⟩ :=
    facetValsFold_spec doc_id field facets hne sw.multifield_postings
      sw.fast_field_writers
  refine ⟨?_, hsubs, hvals, ?_⟩
  · unfold processFacetField
    rw [hc]
    rfl
  · exact facetValsFold_rowCount doc_id field facets sw.multifield_postings
      sw.fast_field_writers

/-- Claim C3 witness: one facet value `/a/b` on a fresh writer. -/
theorem claim_C3_facet_branch_witness :
    processFacetField (⟨0, ⟨[], []⟩, ⟨0, []⟩, ⟨[], 0⟩, [], [], []⟩ : SegmentWriter) 0 0
        [.facet ["a", "b"]] = some
      ⟨0, ⟨[⟨0, .facetPath ["a"]⟩, ⟨0, .facetPath ["a", "b"]⟩],
           [(0, ⟨0, .facetPath ["a"]⟩), (0, ⟨0, .facetPath ["a", "b"]⟩)]⟩,
        ⟨0, [(0, 1)]⟩, ⟨[], 0⟩, [], [], []⟩ ∧
    ([(0, (⟨0, .facetPath ["a"]⟩ : Term)), (0, ⟨0, .facetPath ["a", "b"]⟩)] :
        List (Nat × Term)) =
      [] ++ [["a", "b"]].flatMap (fun s => (facetTokens s).map
        (fun anc => (0, Term.mk 0 (.facetPath anc)))) ∧
    ([(0, 1)] : List (Nat × Nat)) = [] ++ [["a", "b"]].map (fun s => (0,
      termIdx (Term.mk 0 (.facetPath s))
        [⟨0, .facetPath ["a"]⟩, ⟨0, .facetPath ["a", "b"]⟩])) ∧
    (0 : Nat) = 0 :=
  claim_C3_facet_branch ⟨0, ⟨[], []⟩, ⟨0, []⟩, ⟨[], 0⟩, [], [], []⟩ 0 0
    [.facet ["a", "b"]] [["a", "b"]] rfl (by decide)

theorem collectFacets_none {vs : List Value} (h : ∃ v ∈ vs, v.isFacet = false) :
    collectFacets vs = none := by
  induction vs with
  | nil => obtain ⟨v, hv, _⟩ := h; cases hv
  | cons v rest ih =>
    obtain ⟨w, hw, hwf⟩ := h
    cases v with
    | facet steps =>
      have hwr : w ∈ rest := by
        cases hw with
        | head => cases hwf
        | tail _ hmem => exact hmem
      rw [collectFacets, ih ⟨w, hwr, hwf⟩]
      rfl
    | str s => rfl
    | u64 n => rfl
    | i64 n => rfl
    | f64 b => rfl
    | date t => rfl
    | bytes b => rfl

theorem processField_facet_bad {schema : Schema} {f : Nat} {vs : List Value}
    (hty : (getFieldEntry schema f).fieldType = .hierarchicalFacet)
    (hcf : collectFacets vs = none) (doc_id : Nat) (sw : SegmentWriter) :
    processField schema doc_id sw f vs = none := by
  have hidx : (getFieldEntry schema f).is_indexed = true := by
    rw [FieldEntry.is_indexed, hty]
    rfl
  unfold processField
  rw [hidx, hty]
  simp [processFacetField, hcf]

theorem processFields_mem_none {schema : Schema} {doc_id f : Nat} {vs : List Value}
    (hnone : ∀ sw : SegmentWriter, processField schema doc_id sw f vs = none) :
    ∀ (l : List (Nat × List Value)) (sw : SegmentWriter), (f, vs) ∈ l →
      processFields schema doc_id sw l = none := by
  intro l
  induction l with
  | nil => intro sw hmem; cases hmem
  | cons p rest ih =>
    rcases p with ⟨g, ws⟩
    intro sw hmem
    rcases List.mem_cons.1 hmem with heq | hmem'
    · have h1 : f = g := congrArg Prod.fst heq
      have h2 : vs = ws := congrArg Prod.snd heq
      subst h1
      subst h2
      unfold processFields
      rw [hnone sw]
    · unfold processFields
      split
      · rename_i sw1 _
        exact ih sw1 hmem'
      · rfl

/-- Claim C5: a document carrying, under a field whose schema type is
`HierarchicalFacet`, at least one value that is not a facet value makes
`add_document` abort the process (the `panic!` in the facet branch) instead of
returning a recoverable error. -/
theorem claim_C5_non_facet_value_panics (schema : Schema) (sw : SegmentWriter)
    (op : AddOperation) (store_ok : Bool) (f : Nat) (vs : List Value)
    (hmem : (f, vs) ∈ getSortedFieldValues op.document)
    (hty : (getFieldEntry schema f).fieldType = .hierarchicalFacet)
    (hbad : ∃ v ∈ vs, v.isFacet = false) :
    (add_document sw op schema store_ok).1 = .panicked := by
  have hcf := collectFacets_none hbad
  have hnone := fun sw' => processField_facet_bad hty hcf sw.max_doc sw'
  rw [add_document_eta]
  rw [processFields_mem_none hnone (getSortedFieldValues op.document) _ hmem]

/-- Claim C5 witness: a `u64` value under a facet field. -/
theorem claim_C5_non_facet_value_panics_witness :
    (add_document (⟨0, ⟨[], []⟩, ⟨0, []⟩, ⟨[], 0⟩, [], [none], []⟩ : SegmentWriter)
      ⟨3, [(0, .u64 1)]⟩ [⟨.hierarchicalFacet, false⟩] true).1 = .panicked :=
  claim_C5_non_facet_value_panics [⟨.hierarchicalFacet, false⟩]
    ⟨0, ⟨[], []⟩, ⟨0, []⟩, ⟨[], 0⟩, [], [none], []⟩ ⟨3, [(0, .u64 1)]⟩ true 0
    [.u64 1] (by decide) rfl ⟨.u64 1, by decide, rfl⟩

/-- Claim C4: a text field marked indexed whose tokenizer name is unknown to the
registry gets no tokenizer slot at writer construction, and `add_document`'s
text branch then subscribes no terms for that field and records a token count
of 0 in the field-norm writer, without returning an error. -/
theorem claim_C4_unknown_tokenizer_indexes_zero_tokens (schema : Schema)
    (registry : String → Option Tokenizer) (memory_budget : Nat) (f : Nat)
    (name : String) (st : Bool) (sw0 : SegmentWriter)
    (hschema : schema.get? f = some ⟨.str true name, st⟩)
    (hreg : registry name = none)
    (hfs : for_segment memory_budget registry schema = .ok sw0)
    (sw : SegmentWriter) (doc_id : Nat) (values : List Value)
    (htok : sw.tokenizers = sw0.tokenizers) :
    sw.tokenizers.getD f none = none ∧
    processField schema doc_id sw f values =
      some { sw with fieldnorms_writer := sw.fieldnorms_writer.record doc_id f 0 } := by
  unfold for_segment at hfs
  split at hfs
  · exact absurd hfs (by simp)
  · injection hfs with hfs
    have htoks : sw.tokenizers = buildTokenizers schema registry := by
      rw [htok, ← hfs]
    have hgetD : sw.tokenizers.getD f none = none := by
      rw [htoks]
      unfold buildTokenizers
      rw [List.getD_eq_getElem?_getD, List.getElem?_map]
      rw [← List.get?_eq_getElem?, hschema]
      simp [hreg]
    have hentry : getFieldEntry schema f = ⟨.str true name, st⟩ := by
      unfold getFieldEntry
      rw [hschema]
      rfl
    refine ⟨hgetD, ?_⟩
    unfold processField
    rw [hentry]
    simp only [FieldEntry.is_indexed, FieldType.is_indexed, Bool.not_true,
      Bool.false_eq_true, if_false]
    unfold processTextField
    rw [hgetD]

/-- Claim C4 witness: schema with one indexed text field naming an unknown
tokenizer. -/
theorem claim_C4_unknown_tokenizer_indexes_zero_tokens_witness :
    (⟨0, ⟨[], []⟩, ⟨0, []⟩, ⟨[], 0⟩, [], [none], []⟩ :
        SegmentWriter).tokenizers.getD 0 none = none ∧
    processField [⟨.str true "nope", false⟩] 0
        (⟨0, ⟨[], []⟩, ⟨0, []⟩, ⟨[], 0⟩, [], [none], []⟩ : SegmentWriter) 0
        [.str "hello"] =
      some ⟨0, ⟨[], []⟩, ⟨0, []⟩, ⟨[(0, 0, 0)], 0⟩, [], [none], []⟩ :=
  claim_C4_unknown_tokenizer_indexes_zero_tokens [⟨.str true "nope", false⟩]
    (fun _ => none) 100000 0 "nope" false
    ⟨0, ⟨[], []⟩, ⟨0, []⟩, ⟨[], 0⟩, [], [none], []⟩ rfl rfl rfl
    ⟨0, ⟨[], []⟩, ⟨0, []⟩, ⟨[], 0⟩, [], [none], []⟩ 0 [.str "hello"] rfl

theorem strTexts_filter (values : List Value) :
    strTexts (values.filter Value.isStr) = strTexts values := by
  induction values with
  | nil => rfl
  | cons v rest ih =>
    cases v <;> simp [strTexts, Value.isStr, List.filter_cons, List.filterMap_cons] at ih ⊢ <;>
      exact ih

/-- Claim C10: values of a non-`Str` type under a `Text` field are silently
skipped: the text branch never panics (unlike the facet branch), behaves exactly
as if only the `Str` values were present, and the recorded field norm counts
only the tokens produced from the `Str` values. -/
theorem claim_C10_non_str_values_skipped (sw : SegmentWriter) (doc_id fld : Nat)
    (values : List Value) :
    (∀ (schema : Schema) (idx : Bool) (name : String),
      (getFieldEntry schema fld).fieldType = .str idx name →
      (processField schema doc_id sw fld values).isSome = true) ∧
    processTextField sw doc_id fld values =
      processTextField sw doc_id fld (values.filter Value.isStr) ∧
    (∀ tok : Tokenizer, sw.tokenizers.getD fld none = some tok →
      (processTextField sw doc_id fld values).fieldnorms_writer =
        sw.fieldnorms_writer.record doc_id fld
          (if (strTexts values).isEmpty then 0 else (tok (strTexts values)).length)) := by
  refine ⟨?_, ?_, ?_⟩
  · intro schema idx name hty
    unfold processField
    split
    · rfl
    · rw [hty]
      rfl
  · unfold processTextField
    rw [strTexts_filter]
  · intro tok htok
    simp only [processTextField, htok, index_text]
    split <;> rfl

/-- Claim C10 witness: a `u64` value mixed among the `Str` values of a text
field, with the identity tokenizer. -/
theorem claim_C10_non_str_values_skipped_witness :
    ((∀ (schema : Schema) (idx : Bool) (name : String),
      (getFieldEntry schema 0).fieldType = .str idx name →
      (processField schema 0
        (⟨0, ⟨[], []⟩, ⟨0, []⟩, ⟨[], 0⟩, [], [some (fun ts => ts)], []⟩ : SegmentWriter)
        0 [.str "a", .u64 7, .str "b"]).isSome = true) ∧
    processTextField
        (⟨0, ⟨[], []⟩, ⟨0, []⟩, ⟨[], 0⟩, [], [some (fun ts => ts)], []⟩ : SegmentWriter)
        0 0 [.str "a", .u64 7, .str "b"] =
      processTextField
        (⟨0, ⟨[], []⟩, ⟨0, []⟩, ⟨[], 0⟩, [], [some (fun ts => ts)], []⟩ : SegmentWriter)
        0 0 ([.str "a", .u64 7, .str "b"].filter Value.isStr) ∧
    (∀ tok : Tokenizer,
      (⟨0, ⟨[], []⟩, ⟨0, []⟩, ⟨[], 0⟩, [], [some (fun ts => ts)], []⟩ :
        SegmentWriter).tokenizers.getD 0 none = some tok →
      (processTextField
          (⟨0, ⟨[], []⟩, ⟨0, []⟩, ⟨[], 0⟩, [], [some (fun ts => ts)], []⟩ : SegmentWriter)
          0 0 [.str "a", .u64 7, .str "b"]).fieldnorms_writer =
        (⟨[], 0⟩ : FieldNormsWriter).record 0 0
          (if (strTexts [.str "a", .u64 7, .str "b"]).isEmpty then 0
           else (tok (strTexts [.str "a", .u64 7, .str "b"])).length))) :=
  claim_C10_non_str_values_skipped
    ⟨0, ⟨[], []⟩, ⟨0, []⟩, ⟨[], 0⟩, [], [some (fun ts => ts)], []⟩ 0 0
    [.str "a", .u64 7, .str "b"]

/-! Directory capability model.

Modelled from the spec: the directory implementations (the RAM variant and the
memory-mapped variant) are not part of the visible sources — only their shared
test suite `src/directory/tests.rs` is. The capability set of spec section 4.1
(`open_write`, `delete`, `atomic_write`, `acquire_lock`, `watch`) is embedded as
a sequential state machine; real time (sleeps, callback delivery threads) is
abstracted into the order of operations. -/

/-- Modelled from the spec: a directory's observable state — the existing file
paths, the held advisory lock paths, whether a live watch handle is registered,
and how many times the watch callback has fired. -/
structure DirState where
  files : List String
  locks : List String
  watcherArmed : Bool
  callbackCount : Nat
  deriving DecidableEq, Repr

/-- A freshly created directory: no files, no locks, no watch registered. -/
def newDirState : DirState :=
  { files := [], locks := [], watcherArmed := false, callbackCount := 0 }

/-- Modelled from the spec: `open_write(path)` creates a new file and fails with
`FileAlreadyExists` when the path exists (`none`). -/
def openWrite (st : DirState) (p : String) : Option DirState :=
  if p ∈ st.files then none else some { st with files := st.files ++ [p] }

/-- Modelled from the spec: `delete(path)` removes an existing file and fails
with `FileDoesNotExist` otherwise. -/
def deleteFile (st : DirState) (p : String) : Option DirState :=
  if p ∈ st.files then some { st with files := st.files.filter (fun q => q != p) }
  else none

/-- Modelled from the spec: `atomic_write(path, bytes)` replaces the file
atomically and fires the watch callback when a live watch handle is
registered. -/
def atomicWrite (st : DirState) (p : String) : DirState :=
  { st with
    files := if p ∈ st.files then st.files else st.files ++ [p],
    callbackCount :=
      if st.watcherArmed then st.callbackCount + 1 else st.callbackCount }

/-- Modelled from the spec: `watch(callback)` registers a live watch handle. -/
def watchDir (st : DirState) : DirState := { st with watcherArmed := true }

/-- Modelled from the spec: dropping the watch handle disarms the callback. -/
def dropWatchHandle (st : DirState) : DirState := { st with watcherArmed := false }

/-- The outcome of `acquire_lock`: the lock acquired (with the new state), the
non-blocking refusal `LockBusy`, or — for a blocking call on a held lock — the
caller suspended until the holder's guard is dropped. -/
inductive LockResult where
  | acquired (st : DirState)
  | busy
  | wouldBlock
  deriving DecidableEq, Repr

/-- Modelled from the spec: `acquire_lock(Lock { path, blocking })`, an advisory
exclusive lock keyed by path. A non-blocking call on a held path fails with
`LockBusy`; a blocking call on a held path waits (no timeout). -/
def acquireLock (st : DirState) (p : String) (blocking : Bool) : LockResult :=
  if p ∈ st.locks then
    if blocking then .wouldBlock else .busy
  else .acquired { st with locks := st.locks ++ [p] }

/-- Modelled from the spec: dropping a `LockGuard` releases its lock. -/
def releaseLock (st : DirState) (p : String) : DirState :=
  { st with locks := st.locks.filter (fun q => q != p) }

/-- A directory operation, for stating trace properties. -/
inductive DirOp where
  | write (p : String)
  | del (p : String)
  | atomic (p : String)
  deriving DecidableEq, Repr

/-- The state effect of one directory operation (a failing operation leaves the
state unchanged). -/
def applyDirOp (st : DirState) : DirOp → DirState
  | .write p => (openWrite st p).getD st
  | .del p => (deleteFile st p).getD st
  | .atomic p => atomicWrite st p

def applyDirOps (st : DirState) (ops : List DirOp) : DirState :=
  ops.foldl applyDirOp st

/-- A sequence of `atomic_write` calls. -/
def atomicWrites (st : DirState) (ps : List String) : DirState :=
  ps.foldl atomicWrite st

theorem mem_files_applyDirOp {p : String} {st : DirState} (op : DirOp)
    (hmem : p ∈ st.files) (hnd : ∀ q, op = DirOp.del q → q ≠ p) :
    p ∈ (applyDirOp st op).files := by
  cases op with
  | write q =>
    simp only [applyDirOp]
    unfold openWrite
    split
    · simpa using hmem
    · simp [hmem]
  | del q =>
    have hqp : q ≠ p := hnd q rfl
    simp only [applyDirOp]
    unfold deleteFile
    split
    · simp only [Option.getD_some]
      refine List.mem_filter.2 ⟨hmem, ?_⟩
      simp [bne_iff_ne]
      exact Ne.symm hqp
    · simpa using hmem
  | atomic q =>
    simp only [applyDirOp]
    unfold atomicWrite
    simp only []
    split <;> simp [hmem]

theorem mem_files_applyDirOps {p : String} :
    ∀ (ops : List DirOp) (st : DirState), p ∈ st.files →
      (∀ q, DirOp.del q ∈ ops → q ≠ p) → p ∈ (applyDirOps st ops).files
  | [], st, hmem, _ => hmem
  | op :: rest, st, hmem, hnd => by
    have hstep : p ∈ (applyDirOp st op).files :=
      mem_files_applyDirOp op hmem (fun q hq => hnd q (hq ▸ List.mem_cons_self op rest))
    exact mem_files_applyDirOps rest (applyDirOp st op) hstep
      (fun q hq => hnd q (List.mem_cons_of_mem op hq))

/-- Claim C6: once `open_write(p)` has succeeded, a second `open_write(p)` fails
as long as `p` has not been deleted (across any sequence of further operations
not deleting `p`); after a successful `delete(p)`, `open_write(p)` succeeds
again. -/
theorem claim_C6_open_write_exclusive (st : DirState) (p : String) (st' : DirState)
    (h : openWrite st p = some st') :
    openWrite st' p = none ∧
    (∀ ops : List DirOp, (∀ q, DirOp.del q ∈ ops → q ≠ p) →
      openWrite (applyDirOps st' ops) p = none) ∧
    (∀ st'', deleteFile st' p = some st'' → (openWrite st'' p).isSome = true) := by
  unfold openWrite at h
  split at h
  · exact absurd h (by simp)
  · rename_i hnmem
    have hst' : st' = { st with files := st.files ++ [p] } :=
      (Option.some_injective _ h).symm
    subst hst'
    have hmem : p ∈ ({ st with files := st.files ++ [p] } : DirState).files := by
      simp
    refine ⟨by simp [openWrite], ?_, ?_⟩
    · intro ops hnd
      unfold openWrite
      rw [if_pos (mem_files_applyDirOps ops _ hmem hnd)]
    · intro st'' hdel
      unfold deleteFile at hdel
      rw [if_pos hmem] at hdel
      obtain rfl := Option.some_injective _ hdel
      unfold openWrite
      have hnin : p ∉ (({ st with files := st.files ++ [p] } :
          DirState).files.filter (fun q => q != p)) := by
        simp [List.mem_filter]
      rw [if_neg hnin]
      rfl

/-- Claim C6 witness: create, re-create (fails), delete, re-create. -/
theorem claim_C6_open_write_exclusive_witness :
    openWrite (⟨["a"], [], false, 0⟩ : DirState) "a" = none ∧
    (∀ ops : List DirOp, (∀ q, DirOp.del q ∈ ops → q ≠ "a") →
      openWrite (applyDirOps (⟨["a"], [], false, 0⟩ : DirState) ops) "a" = none) ∧
    (∀ st'', deleteFile (⟨["a"], [], false, 0⟩ : DirState) "a" = some st'' →
      (openWrite st'' "a").isSome = true) :=
  claim_C6_open_write_exclusive ⟨[], [], false, 0⟩ "a" ⟨["a"], [], false, 0⟩ rfl

theorem atomicWrites_count (ps : List String) : ∀ st : DirState,
    (atomicWrites st ps).callbackCount =
      st.callbackCount + (if st.watcherArmed then ps.length else 0) ∧
    (atomicWrites st ps).watcherArmed = st.watcherArmed := by
  induction ps with
  | nil => intro st; simp [atomicWrites]
  | cons p rest ih =>
    intro st
    have hstep : atomicWrites st (p :: rest) = atomicWrites (atomicWrite st p) rest := rfl
    obtain ⟨h1, h2⟩ := ih (atomicWrite st p)
    rw [hstep, h1, h2]
    cases h : st.watcherArmed
    · simp [atomicWrite, h]
    · simp [atomicWrite, h]
      omega

/-- Claim C7: while a watch handle is registered, every `atomic_write` fires the
callback exactly once (so `n` successive writes, each waiting for its callback,
yield exactly `n` invocations); writes performed before a watch is registered,
and writes performed after the handle is dropped, fire no callback. -/
theorem claim_C7_watch_callback_cadence (st : DirState) (ps : List String) :
    (st.watcherArmed = true →
      (atomicWrites st ps).callbackCount = st.callbackCount + ps.length) ∧
    (atomicWrites (watchDir st) ps).callbackCount = st.callbackCount + ps.length ∧
    (st.watcherArmed = false →
      (atomicWrites st ps).callbackCount = st.callbackCount) ∧
    (atomicWrites (dropWatchHandle st) ps).callbackCount = st.callbackCount ∧
    (atomicWrites newDirState ps).callbackCount = 0 := by
  refine ⟨?_, ?_, ?_, ?_, ?_⟩
  · intro h
    rw [(atomicWrites_count ps st).1, h]
    rfl
  · rw [(atomicWrites_count ps (watchDir st)).1]
    rfl
  · intro h
    rw [(atomicWrites_count ps st).1, h]
    rfl
  · rw [(atomicWrites_count ps (dropWatchHandle st)).1]
    rfl
  · rw [(atomicWrites_count ps newDirState).1]
    rfl

/-- Claim C7 witness: two writes with the watch armed, and after dropping it. -/
theorem claim_C7_watch_callback_cadence_witness :
    ((⟨[], [], true, 0⟩ : DirState).watcherArmed = true →
      (atomicWrites (⟨[], [], true, 0⟩ : DirState) ["meta.json", "meta.json"]).callbackCount =
        0 + 2) ∧
    (atomicWrites (watchDir (⟨[], [], true, 0⟩ : DirState))
        ["meta.json", "meta.json"]).callbackCount = 0 + 2 ∧
    ((⟨[], [], true, 0⟩ : DirState).watcherArmed = false →
      (atomicWrites (⟨[], [], true, 0⟩ : DirState) ["meta.json", "meta.json"]).callbackCount =
        0) ∧
    (atomicWrites (dropWatchHandle (⟨[], [], true, 0⟩ : DirState))
        ["meta.json", "meta.json"]).callbackCount = 0 ∧
    (atomicWrites newDirState ["meta.json", "meta.json"]).callbackCount = 0 :=
  claim_C7_watch_callback_cadence ⟨[], [], true, 0⟩ ["meta.json", "meta.json"]

/-- Whether an `acquire_lock` call succeeded. -/
def LockResult.isAcquired : LockResult → Bool
  | .acquired _ => true
  | _ => false

/-- Claim C8: while a lock guard for `p` is live, a non-blocking acquire of `p`
fails with `LockBusy` and a blocking acquire waits, while an acquire of a
different free path succeeds; after the guard is dropped, both a non-blocking
and a blocking acquire of `p` succeed. -/
theorem claim_C8_advisory_locks (st : DirState) (p : String) (st' : DirState)
    (h : acquireLock st p false = .acquired st') :
    acquireLock st' p false = .busy ∧
    acquireLock st' p true = .wouldBlock ∧
    (∀ q, q ≠ p → q ∉ st.locks → (acquireLock st' q false).isAcquired = true) ∧
    (acquireLock (releaseLock st' p) p false).isAcquired = true ∧
    (acquireLock (releaseLock st' p) p true).isAcquired = true := by
  unfold acquireLock at h
  split at h
  · split at h <;> cases h
  · rename_i hnmem
    obtain rfl : ({ st with locks := st.locks ++ [p] } : DirState) = st' := by
      injection h
    have hmem : p ∈ ({ st with locks := st.locks ++ [p] } : DirState).locks := by simp
    have hrel : p ∉ (releaseLock { st with locks := st.locks ++ [p] } p).locks := by
      simp [releaseLock, List.mem_filter]
    refine ⟨?_, ?_, ?_, ?_, ?_⟩
    · unfold acquireLock
      rw [if_pos hmem]
      rfl
    · unfold acquireLock
      rw [if_pos hmem]
      rfl
    · intro q hqp hqn
      have hq : q ∉ ({ st with locks := st.locks ++ [p] } : DirState).locks := by
        simp [hqn, hqp]
      unfold acquireLock
      rw [if_neg hq]
      rfl
    · unfold acquireLock
      rw [if_neg hrel]
      rfl
    · unfold acquireLock
      rw [if_neg hrel]
      rfl

/-- Claim C8 witness: `a.lock` held, `b.lock` free. -/
theorem claim_C8_advisory_locks_witness :
    acquireLock (⟨[], ["a.lock"], false, 0⟩ : DirState) "a.lock" false = .busy ∧
    acquireLock (⟨[], ["a.lock"], false, 0⟩ : DirState) "a.lock" true = .wouldBlock ∧
    (acquireLock (⟨[], ["a.lock"], false, 0⟩ : DirState) "b.lock" false).isAcquired =
      true ∧
    (acquireLock (releaseLock (⟨[], ["a.lock"], false, 0⟩ : DirState) "a.lock")
      "a.lock" false).isAcquired = true ∧
    (acquireLock (releaseLock (⟨[], ["a.lock"], false, 0⟩ : DirState) "a.lock")
      "a.lock" true).isAcquired = true := by
  obtain ⟨h1, h2, h3, h4, h5⟩ :=
    claim_C8_advisory_locks ⟨[], [], false, 0⟩ "a.lock" ⟨[], ["a.lock"], false, 0⟩ rfl
  exact ⟨h1, h2, h3 "b.lock" (by decide) (by decide), h4, h5⟩

/-- Claim C2: `initial_table_size(budget)` returns the largest `k ≥ 10` whose
estimated table size is strictly below `budget / 3`, capped at 19, and fails
with `InvalidArgument` when no `k ≥ 10` fits; in particular it maps budget
100000 to 11, 1000000 to 14, 10000000 to 17 and 10⁹ to 19 (not 20 or more). -/
theorem claim_C2_initial_table_size (budget : Nat) (hb : budget < 2 ^ 64) :
    ((compute_table_size 10 < budget / 3 →
        ∃ K, 10 ≤ K ∧ compute_table_size K < budget / 3 ∧
          (∀ j, compute_table_size j < budget / 3 → j ≤ K) ∧
          initial_table_size budget = .ok (min K 19)) ∧
      ((∀ k, 10 ≤ k → ¬ compute_table_size k < budget / 3) →
        ∃ msg, initial_table_size budget = .error msg)) ∧
    initial_table_size 100000 = .ok 11 ∧
    initial_table_size 1000000 = .ok 14 ∧
    initial_table_size 10000000 = .ok 17 ∧
    initial_table_size 1000000000 = .ok 19 := by
  have hfuel : ¬ compute_table_size (10 + 63) < budget / 3 := by
    have h1 : budget / 3 ≤ budget := Nat.div_le_self budget 3
    have h2 : (2 : Nat) ^ 64 ≤ compute_table_size (10 + 63) := by
      unfold compute_table_size
      norm_num
    omega
  have hspec := find_limit_spec (budget / 3) 63 10 hfuel
  rw [show (63 : Nat) + 1 = 64 from rfl] at hspec
  refine ⟨⟨fun hp10 => ?_, fun hnone => ?_⟩, rfl, rfl, rfl, rfl⟩
  · obtain ⟨K, hfl, hle, hK, hK1⟩ := hspec.1 hp10
    refine ⟨K, hle, hK, fun j hj => ?_, ?_⟩
    · by_contra hgt
      exact hK1 (lt_of_le_of_lt (compute_table_size_mono (by omega)) hj)
    · unfold initial_table_size
      rw [hfl]
  · have h10 := hnone 10 (le_refl 10)
    have hfl := hspec.2 h10
    refine ⟨"per thread memory budget (=" ++ toString budget ++
      ") is too small. Raise the memory budget or lower the number of threads.", ?_⟩
    unfold initial_table_size
    rw [hfl]

/-- Claim C2 witness: the reference vectors of `test_hashmap_size`. -/
theorem claim_C2_initial_table_size_witness :
    initial_table_size 100000 = .ok 11 ∧ initial_table_size 1000000 = .ok 14 ∧
    initial_table_size 10000000 = .ok 17 ∧ initial_table_size 1000000000 = .ok 19 :=
  (claim_C2_initial_table_size 1000000000 (by norm_num)).2
end Tantivy
